import Mathlib

/-!
Verification of the aws-secret-parse pipeline (the name-filter variant in
main.go): secret discovery via ListSecrets, per-secret value fetch via
GetSecretValue, JSON-object flattening into a flat string-to-string
template context, and html/template rendering to the output file.

The AWS network calls are modelled by passing the store's responses as
explicit arguments (the ListSecrets response and a fetch function for
GetSecretValue); the Go map iteration order over the discovered secrets
is modelled as the order of an explicit list, since Go leaves it
unspecified.  Library behaviour (encoding/json, fmt, html/template) is
modelled from its documented semantics.
-/

namespace AwsSecretParse

/-- JSON values as produced by Go's encoding/json when decoding into an
untyped interface value: objects become string-keyed maps (duplicate keys
resolved later-wins), arrays become slices, strings stay strings, numbers
become float64, booleans stay booleans and null becomes a nil interface.
Numbers are modelled as exact decimals m * 10^e; Go decodes them to
float64 and fmt reprints the shortest round-tripping decimal, which agrees
with this model on every literal that is already a shortest representation
(all literals appearing in this development). -/
inductive Jval where
  | jnull : Jval
  | jbool (b : Bool) : Jval
  | jnum (m : Int) (e : Int) : Jval
  | jstr (s : String) : Jval
  | jarr (xs : List Jval) : Jval
  | jobj (kvs : List (String × Jval)) : Jval

/-- Insert a key/value pair into an association list with Go map
semantics: replace the binding in place if the key is present, append
otherwise. -/
def goMapInsert (k : String) (v : Jval) : List (String × Jval) → List (String × Jval)
  | [] => [(k, v)]
  | (k2, v2) :: rest => if k = k2 then (k2, v) :: rest else (k2, v2) :: goMapInsert k v rest

/-- Build a Go map from a member list in text order: later duplicate keys
overwrite earlier ones, as encoding/json does while decoding an object. -/
def goMap (l : List (String × Jval)) : List (String × Jval) :=
  l.foldl (fun m kv => goMapInsert kv.1 kv.2 m) []

/-- Skip JSON insignificant whitespace, as encoding/json does. -/
def skipWs : List Char → List Char
  | [] => []
  | c :: cs => if c = ' ' ∨ c = '\t' ∨ c = '\n' ∨ c = '\r' then skipWs cs else c :: cs

/-- Value of a hexadecimal digit character. -/
def hexVal (c : Char) : Option Nat :=
  if '0' ≤ c ∧ c ≤ '9' then some (c.toNat - 48)
  else if 'a' ≤ c ∧ c ≤ 'f' then some (c.toNat - 87)
  else if 'A' ≤ c ∧ c ≤ 'F' then some (c.toNat - 55)
  else none

/-- Parse exactly four hex digits (the XXXX of a \uXXXX escape). -/
def parseHex4 : List Char → Option (Nat × List Char)
  | a :: b :: c :: d :: rest =>
    match hexVal a, hexVal b, hexVal c, hexVal d with
    | some x, some y, some z, some w => some (4096 * x + 256 * y + 16 * z + w, rest)
    | _, _, _, _ => none
  | _ => none

/-- Parse the body of a JSON string after the opening quote, with the
escape handling of encoding/json: the standard single-character escapes,
\uXXXX with surrogate-pair combination, and U+FFFD for unpaired
surrogates; raw control characters below 0x20 are rejected. -/
def parseStringBody : Nat → List Char → List Char → Option (String × List Char)
  | 0, _, _ => none
  | _+1, [], _ => none
  | f+1, c :: rest, acc =>
    if c = '"' then some (String.mk acc.reverse, rest)
    else if c = '\\' then
      match rest with
      | [] => none
      | e :: rest2 =>
        if e = '"' then parseStringBody f rest2 ('"' :: acc)
        else if e = '\\' then parseStringBody f rest2 ('\\' :: acc)
        else if e = '/' then parseStringBody f rest2 ('/' :: acc)
        else if e = 'b' then parseStringBody f rest2 (Char.ofNat 8 :: acc)
        else if e = 'f' then parseStringBody f rest2 (Char.ofNat 12 :: acc)
        else if e = 'n' then parseStringBody f rest2 ('\n' :: acc)
        else if e = 'r' then parseStringBody f rest2 ('\r' :: acc)
        else if e = 't' then parseStringBody f rest2 ('\t' :: acc)
        else if e = 'u' then
          match parseHex4 rest2 with
          | none => none
          | some (n1, rest3) =>
            if 0xD800 ≤ n1 ∧ n1 < 0xDC00 then
              match rest3 with
              | '\\' :: 'u' :: rest4 =>
                match parseHex4 rest4 with
                | some (n2, rest5) =>
                  if 0xDC00 ≤ n2 ∧ n2 < 0xE000 then
                    parseStringBody f rest5
                      (Char.ofNat (0x10000 + (n1 - 0xD800) * 0x400 + (n2 - 0xDC00)) :: acc)
                  else parseStringBody f rest3 (Char.ofNat 0xFFFD :: acc)
                | none => parseStringBody f rest3 (Char.ofNat 0xFFFD :: acc)
              | _ => parseStringBody f rest3 (Char.ofNat 0xFFFD :: acc)
            else if 0xDC00 ≤ n1 ∧ n1 < 0xE000 then
              parseStringBody f rest3 (Char.ofNat 0xFFFD :: acc)
            else
              parseStringBody f rest3 (Char.ofNat n1 :: acc)
        else none
    else if c.toNat < 0x20 then none
    else parseStringBody f rest (c :: acc)

/-- Numeric value of a digit string. -/
def digitsToNat (ds : List Char) : Nat :=
  ds.foldl (fun acc c => 10 * acc + (c.toNat - 48)) 0

/-- Split a leading run of decimal digits from the input. -/
def takeDigits : List Char → (List Char × List Char)
  | [] => ([], [])
  | c :: rest =>
    if c.isDigit then
      let p := takeDigits rest
      (c :: p.1, p.2)
    else ([], c :: rest)

/-- Whether the input starts with a decimal digit. -/
def headIsDigit : List Char → Bool
  | d :: _ => d.isDigit
  | [] => false

/-- Parse an optional JSON fraction part; a dot must be followed by at
least one digit. -/
def splitFrac : List Char → Option (List Char × List Char)
  | '.' :: fr =>
    let p := takeDigits fr
    if p.1 = [] then none else some (p.1, p.2)
  | cs => some ([], cs)

/-- Parse an optional JSON exponent part, returning its signed value. -/
def splitExp : List Char → Option (Int × List Char)
  | c :: r =>
    if c = 'e' ∨ c = 'E' then
      let sr : (Int × List Char) :=
        match r with
        | '+' :: rr => (1, rr)
        | '-' :: rr => (-1, rr)
        | _ => (1, r)
      let p := takeDigits sr.2
      if p.1 = [] then none else some (sr.1 * (digitsToNat p.1 : Int), p.2)
    else some (0, c :: r)
  | [] => some (0, [])

/-- Parse a JSON number literal to its exact decimal value m * 10^e,
following the JSON grammar (no leading zeros, fraction and exponent
digits required when the markers are present). -/
def parseNumber (cs : List Char) : Option ((Int × Int) × List Char) :=
  let sign : (Bool × List Char) :=
    match cs with
    | '-' :: r => (true, r)
    | _ => (false, cs)
  match sign.2 with
  | [] => none
  | c :: rest =>
    if c.isDigit then
      if c = '0' ∧ headIsDigit rest then none
      else
        let ip : (List Char × List Char) :=
          if c = '0' then ([c], rest)
          else
            let p := takeDigits rest
            (c :: p.1, p.2)
        match splitFrac ip.2 with
        | none => none
        | some (fracDs, cs3) =>
          match splitExp cs3 with
          | none => none
          | some (ex, cs4) =>
            let mant : Nat := digitsToNat (ip.1 ++ fracDs)
            let m : Int := if sign.1 then -(mant : Int) else (mant : Int)
            some ((m, ex - fracDs.length), cs4)
    else none

/-- Match a fixed literal tail (the rue of true, etc.). -/
def expectList : List Char → List Char → Option (List Char)
  | [], cs => some cs
  | e :: es, c :: cs => if c = e then expectList es cs else none
  | _ :: _, [] => none

mutual

/-- Parse one JSON value, fuelled; the fuel passed by unmarshalStringMap
is large enough that it is never exhausted before the input is. -/
def parseVal : Nat → List Char → Option (Jval × List Char)
  | 0, _ => none
  | f+1, cs =>
    match skipWs cs with
    | [] => none
    | c :: rest =>
      if c = '\x7b' then
        match parseObjLoop f true rest with
        | some (kvs, r) => some (Jval.jobj (goMap kvs), r)
        | none => none
      else if c = '[' then
        match parseArrLoop f true rest with
        | some (xs, r) => some (Jval.jarr xs, r)
        | none => none
      else if c = '"' then
        match parseStringBody f rest [] with
        | some (s, r) => some (Jval.jstr s, r)
        | none => none
      else if c = 't' then
        match expectList ['r', 'u', 'e'] rest with
        | some r => some (Jval.jbool true, r)
        | none => none
      else if c = 'f' then
        match expectList ['a', 'l', 's', 'e'] rest with
        | some r => some (Jval.jbool false, r)
        | none => none
      else if c = 'n' then
        match expectList ['u', 'l', 'l'] rest with
        | some r => some (Jval.jnull, r)
        | none => none
      else if c = '-' ∨ c.isDigit then
        match parseNumber (c :: rest) with
        | some (me, r) => some (Jval.jnum me.1 me.2, r)
        | none => none
      else none

/-- Parse object members after the opening brace or after a comma; a
closing brace is only accepted directly after the opening brace. -/
def parseObjLoop : Nat → Bool → List Char → Option (List (String × Jval) × List Char)
  | 0, _, _ => none
  | f+1, allowClose, cs =>
    match skipWs cs with
    | [] => none
    | c :: rest =>
      if c = '\x7d' then
        if allowClose then some ([], rest) else none
      else if c = '"' then
        match parseStringBody f rest [] with
        | none => none
        | some (key, r1) =>
          match skipWs r1 with
          | ':' :: r2 =>
            match parseVal f r2 with
            | none => none
            | some (v, r3) =>
              match skipWs r3 with
              | ',' :: r4 =>
                match parseObjLoop f false r4 with
                | some (kvs, r5) => some ((key, v) :: kvs, r5)
                | none => none
              | c2 :: r4 => if c2 = '\x7d' then some ([(key, v)], r4) else none
              | [] => none
          | _ => none
      else none

/-- Parse array elements after the opening bracket or after a comma; a
closing bracket is only accepted directly after the opening bracket. -/
def parseArrLoop : Nat → Bool → List Char → Option (List Jval × List Char)
  | 0, _, _ => none
  | f+1, allowClose, cs =>
    match skipWs cs with
    | [] => none
    | c :: rest =>
      if c = ']' ∧ allowClose then some ([], rest)
      else
        match parseVal f (c :: rest) with
        | none => none
        | some (v, r1) =>
          match skipWs r1 with
          | ',' :: r2 =>
            match parseArrLoop f false r2 with
            | some (xs, r3) => some (v :: xs, r3)
            | none => none
          | ']' :: r2 => some ([v], r2)
          | _ => none

end

/-- Result of json.Unmarshal of a secret value into a
map[string]interface{}: an error, a successful decode of the literal
null (which leaves the map nil), or a successful decode of an object. -/
inductive UnmarshalResult where
  | err : UnmarshalResult
  | nullVal : UnmarshalResult
  | obj (kvs : List (String × Jval)) : UnmarshalResult

/-- Model of json.Unmarshal([]byte(secretValue), &parsed) with parsed a
map[string]interface{}: the whole input must be a single JSON value with
only surrounding whitespace; a top-level object decodes into the map, the
literal null succeeds and leaves the map nil, anything else is an error. -/
def unmarshalStringMap (s : String) : UnmarshalResult :=
  let cs := s.data
  match parseVal (2 * cs.length + 2) cs with
  | none => .err
  | some (v, rest) =>
    if skipWs rest = [] then
      match v with
      | .jnull => .nullVal
      | .jobj kvs => .obj kvs
      | _ => .err
    else .err

mutual

/-- Structural size of a decoded JSON value, used as fuel for fmt. -/
def jsize : Jval → Nat
  | .jobj kvs => 1 + jsizeM kvs
  | .jarr xs => 1 + jsizeL xs
  | _ => 1

/-- Structural size of a slice of decoded JSON values. -/
def jsizeL : List Jval → Nat
  | [] => 1
  | x :: xs => 1 + jsize x + jsizeL xs

/-- Structural size of a decoded JSON object's bindings. -/
def jsizeM : List (String × Jval) → Nat
  | [] => 1
  | kv :: rest => 1 + jsize kv.2 + jsizeM rest

end

/-- Decimal digit characters of a natural number, most significant
first; the fuel (64 everywhere below) far exceeds any digit count that
can arise. -/
def natDigitChars (fuel n : Nat) : List Char :=
  match fuel with
  | 0 => []
  | f+1 => if n < 10 then [Char.ofNat (48 + n)] else natDigitChars f (n / 10) ++ [Char.ofNat (48 + n % 10)]

/-- Drop trailing zero digits. -/
def dropTrailingZeros (ds : List Char) : List Char :=
  ((ds.reverse).dropWhile (fun c => c = '0')).reverse

/-- Shortest 'g'-format rendering of the decimal m * 10^e, as
strconv.FormatFloat(f, 'g', -1, 64) prints a float64 (used by fmt for
%v): fixed notation while the decimal exponent is in [-4, 6), scientific
notation with a sign and at least two exponent digits otherwise. -/
def formatGoFloat (m : Int) (e : Int) : String :=
  if m = 0 then "0"
  else
    let raw := natDigitChars 64 m.natAbs
    let stripped := dropTrailingZeros raw
    let zs := raw.length - stripped.length
    let e2 : Int := e + zs
    let n : Nat := stripped.length
    let x : Int := e2 + n - 1
    let body : List Char :=
      if x < -4 ∨ 6 ≤ x then
        let mantissa : List Char :=
          match stripped with
          | [] => []
          | d :: ds => if ds = [] then [d] else d :: '.' :: ds
        let xa := x.natAbs
        let expDs := natDigitChars 64 xa
        let expDs2 := if xa < 10 then '0' :: expDs else expDs
        mantissa ++ ['e', if x < 0 then '-' else '+'] ++ expDs2
      else
        if 0 ≤ e2 then stripped ++ List.replicate e2.toNat '0'
        else
          let fr := (-e2).toNat
          if fr < n then (stripped.take (n - fr)) ++ '.' :: stripped.drop (n - fr)
          else '0' :: '.' :: List.replicate (fr - n) '0' ++ stripped
    String.mk ((if m < 0 then ['-'] else []) ++ body)

/-- Insert a binding into a list sorted by key, ascending. -/
def insertByKey (p : String × Jval) : List (String × Jval) → List (String × Jval)
  | [] => [p]
  | q :: rest => if p.1 < q.1 then p :: q :: rest else q :: insertByKey p rest

/-- Sort an object's bindings by key, as fmt prints Go maps in sorted
key order (bytewise on UTF-8, which is codepoint order). -/
def sortByKey : List (String × Jval) → List (String × Jval)
  | [] => []
  | p :: rest => insertByKey p (sortByKey rest)

mutual

/-- Fuelled core of goFmtV; with fuel at least jsize of the argument the
zero-fuel branch is never taken. -/
def goFmtVF : Nat → Jval → String
  | 0, _ => ""
  | _+1, .jnull => "<nil>"
  | _+1, .jbool b => if b then "true" else "false"
  | _+1, .jnum m e => formatGoFloat m e
  | _+1, .jstr s => s
  | f+1, .jarr xs => "[" ++ goFmtListF f xs ++ "]"
  | f+1, .jobj kvs => "map[" ++ goFmtMapF f (sortByKey kvs) ++ "]"

/-- Space-separated fmt rendering of slice elements. -/
def goFmtListF : Nat → List Jval → String
  | 0, _ => ""
  | _+1, [] => ""
  | f+1, [x] => goFmtVF f x
  | f+1, x :: y :: xs => goFmtVF f x ++ " " ++ goFmtListF f (y :: xs)

/-- Space-separated key:value fmt rendering of map bindings. -/
def goFmtMapF : Nat → List (String × Jval) → String
  | 0, _ => ""
  | _+1, [] => ""
  | f+1, [kv] => kv.1 ++ ":" ++ goFmtVF f kv.2
  | f+1, kv :: kv2 :: rest => kv.1 ++ ":" ++ goFmtVF f kv.2 ++ " " ++ goFmtMapF f (kv2 :: rest)

end

/-- Model of fmt.Sprintf of the verb %v applied to an interface value
decoded by encoding/json: strings print raw, booleans as true and false,
nil as <nil>, numbers in shortest 'g' form, slices bracketed and space
separated, and maps as map[k1:v1 k2:v2] with keys sorted. -/
def goFmtV (v : Jval) : String := goFmtVF (jsize v) v

/-- The template context built by listSecretsWithFilter: a string-to-
string map, modelled as an association list where the most recent
insertion is found first. -/
abbrev Ctx := List (String × String)

/-- Go map assignment templateContext[k] = v. -/
def ctxInsert (ctx : Ctx) (k v : String) : Ctx := (k, v) :: ctx

/-- Go map lookup: the most recently assigned value for the key. -/
def ctxGet : Ctx → String → Option String
  | [], _ => none
  | (k2, v) :: rest, k => if k = k2 then some v else ctxGet rest k

/-- Body of the per-secret merge in listSecretsWithFilter: try to parse
the fetched value as JSON into a map[string]interface{}; on success merge
each top-level key with its %v-stringified value into the context (a nil
map, from the literal null, merges nothing); on error store the raw value
under the secret's own name. -/
def mergeSecret (ctx : Ctx) (secretName secretValue : String) : Ctx :=
  match unmarshalStringMap secretValue with
  | .err => ctxInsert ctx secretName secretValue
  | .nullVal => ctx
  | .obj kvs => kvs.foldl (fun c kv => ctxInsert c kv.1 (goFmtV kv.2)) ctx

/-- Model of getSecretValueWithContext: the store's GetSecretValue reply
for the ARN.  In the source an error triggers logrus.Fatal, which
terminates the process; either way no code after the failing fetch runs,
which the error branch models. -/
def getSecretValueWithContext (fetch : String → Except String String) (secretArn : String) :
    Except String String :=
  fetch secretArn

/-- The fetch-and-merge loop of listSecretsWithFilter over the
discovered name-to-ARN map, in iteration order. -/
def resolveSecrets (fetch : String → Except String String) :
    List (String × String) → Ctx → Except String Ctx
  | [], ctx => .ok ctx
  | (secretName, secretArn) :: rest, ctx =>
    match getSecretValueWithContext fetch secretArn with
    | .error e => .error e
    | .ok v => resolveSecrets fetch rest (mergeSecret ctx secretName v)

/-- Model of listSecretsWithFilter: the ListSecrets response for the
name filter is passed in as listResp (an error, or the secret list as
name/ARN pairs in map iteration order); on success every secret's value
is fetched and merged into the template context.  A list error is
returned to the caller unchanged, as in the source. -/
def listSecretsWithFilter (name : String)
    (listResp : Except String (List (String × String)))
    (fetch : String → Except String String) : Except String Ctx :=
  match listResp with
  | .error e => .error e
  | .ok secretList => resolveSecrets fetch secretList []

/-- A parsed template node: literal text, or an action referencing a
context key. -/
inductive TNode where
  | text (s : String) : TNode
  | field (k : String) : TNode

/-- Context-sensitive escaping applied by html/template when a value is
substituted into plain (HTML text) content: the htmlEscaper replacement
table. -/
def htmlEscapeChar (c : Char) : String :=
  if c = '&' then "&amp;"
  else if c = '<' then "&lt;"
  else if c = '>' then "&gt;"
  else if c = '"' then "&#34;"
  else if c = '\'' then "&#39;"
  else if c = Char.ofNat 0 then "�"
  else String.singleton c

/-- Escape a whole substituted value. -/
def htmlEscape (s : String) : String :=
  s.data.foldl (fun acc c => acc ++ htmlEscapeChar c) ""

/-- Model of executing a parsed html/template against the context map: a
field action looks its key up in the map, a missing key yields the map
element type's zero value (the empty string), and the substituted value
is HTML-escaped; execution never fails. -/
def renderTemplate : List TNode → Ctx → String
  | [], _ => ""
  | .text s :: rest, ctx => s ++ renderTemplate rest ctx
  | .field k :: rest, ctx => htmlEscape ((ctxGet ctx k).getD "") ++ renderTemplate rest ctx

/-- Model of createFile: execute the parsed template against the secrets
context; the returned string is the byte content written to the output
file. -/
def createFile (tmpl : List TNode) (secrets : Ctx) : String :=
  renderTemplate tmpl secrets

/-- Model of the command's Run function: list-and-resolve the secrets,
and only on success render and write the output file; on any error
logrus.Fatal terminates the process before createFile is reached, which
the error result models (no output file content exists). -/
def mainRun (secretName : String)
    (listResp : Except String (List (String × String)))
    (fetch : String → Except String String)
    (tmpl : List TNode) : Except String String :=
  match listSecretsWithFilter secretName listResp fetch with
  | .error e => .error e
  | .ok secrets => .ok (createFile tmpl secrets)

/-! Infrastructure for reasoning about the merge loop. -/

/-- First-some choice on optional strings. -/
def optOr : Option String → Option String → Option String
  | some w, _ => some w
  | none, b => b

/-- The value of the last binding of a key in an insertion list. -/
def lastLookup : List (String × String) → String → Option String
  | [], _ => none
  | (k2, v) :: rest, k => optOr (lastLookup rest k) (if k = k2 then some v else none)

/-- Insert a list of bindings into the context, first to last. -/
def insertAll (ctx : Ctx) (l : List (String × String)) : Ctx :=
  l.foldl (fun c kv => ctxInsert c kv.1 kv.2) ctx

/-- The bindings one fetched secret value contributes to the context, in
insertion order: the stringified top-level keys for a JSON object,
nothing for the literal null, the raw value under the secret's name
otherwise. -/
def contribsVal (secretName secretValue : String) : List (String × String) :=
  match unmarshalStringMap secretValue with
  | .err => [(secretName, secretValue)]
  | .nullVal => []
  | .obj kvs => kvs.map (fun kv => (kv.1, goFmtV kv.2))

/-- The bindings one discovered secret contributes, given the store's
fetch behaviour (a failing fetch contributes nothing and aborts the run
elsewhere). -/
def contribsOf (fetch : String → Except String String) (s : String × String) :
    List (String × String) :=
  match fetch s.2 with
  | .error _ => []
  | .ok v => contribsVal s.1 v

/-- All bindings contributed by a secret list, in iteration order. -/
def allContribs (fetch : String → Except String String) :
    List (String × String) → List (String × String)
  | [] => []
  | s :: rest => contribsOf fetch s ++ allContribs fetch rest

theorem optOr_none_right (a : Option String) : optOr a none = a := by
  cases a <;> rfl

theorem optOr_assoc (a b c : Option String) :
    optOr (optOr a b) c = optOr a (optOr b c) := by
  cases a <;> cases b <;> rfl

theorem ctxGet_ctxInsert (ctx : Ctx) (k2 v k : String) :
    ctxGet (ctxInsert ctx k2 v) k = if k = k2 then some v else ctxGet ctx k := rfl

theorem ctxGet_insertAll (l : List (String × String)) :
    ∀ (ctx : Ctx) (k : String),
      ctxGet (insertAll ctx l) k = optOr (lastLookup l k) (ctxGet ctx k) := by
  induction l with
  | nil => intro ctx k; rfl
  | cons kv rest ih =>
    intro ctx k
    have h1 : insertAll ctx (kv :: rest) = insertAll (ctxInsert ctx kv.1 kv.2) rest := rfl
    rw [h1, ih]
    cases h : lastLookup rest k with
    | some w => simp [lastLookup, optOr, h]
    | none =>
      simp only [lastLookup, optOr, h, ctxGet_ctxInsert]
      by_cases hk : k = kv.1 <;> simp [hk, optOr]

theorem insertAll_append (ctx : Ctx) (a b : List (String × String)) :
    insertAll ctx (a ++ b) = insertAll (insertAll ctx a) b := by
  simp [insertAll, List.foldl_append]

theorem lastLookup_append (a b : List (String × String)) (k : String) :
    lastLookup (a ++ b) k = optOr (lastLookup b k) (lastLookup a k) := by
  induction a with
  | nil => simp [lastLookup, optOr_none_right]
  | cons kv rest ih => simp [lastLookup, ih, optOr_assoc]

theorem lastLookup_some_mem (l : List (String × String)) (k : String) (w : String)
    (h : lastLookup l k = some w) : k ∈ l.map Prod.fst := by
  induction l with
  | nil => simp [lastLookup] at h
  | cons kv rest ih =>
    simp only [lastLookup] at h
    cases hr : lastLookup rest k with
    | some u =>
      rw [hr] at h
      have hu : u = w := by simpa [optOr] using h
      subst hu
      exact List.mem_cons_of_mem _ (ih hr)
    | none =>
      rw [hr] at h
      simp only [optOr] at h
      by_cases hk : k = kv.1
      · simp [hk]
      · simp [hk] at h

theorem lastLookup_not_mem (l : List (String × String)) (k : String)
    (h : k ∉ l.map Prod.fst) : lastLookup l k = none := by
  induction l with
  | nil => rfl
  | cons kv rest ih =>
    simp only [List.map_cons, List.mem_cons, not_or] at h
    simp [lastLookup, ih h.2, optOr, h.1]

/-- The merge step of listSecretsWithFilter inserts exactly the secret's
contributed bindings. -/
theorem mergeSecret_eq_insertAll (ctx : Ctx) (n v : String) :
    mergeSecret ctx n v = insertAll ctx (contribsVal n v) := by
  cases h : unmarshalStringMap v with
  | err => simp [mergeSecret, contribsVal, h, insertAll, ctxInsert]
  | nullVal => simp [mergeSecret, contribsVal, h, insertAll]
  | obj kvs => simp [mergeSecret, contribsVal, h, insertAll, List.foldl_map]

/-- A successful resolution pass builds exactly the fold of all
contributed bindings over the iteration order. -/
theorem resolveSecrets_ok (fetch : String → Except String String) :
    ∀ (l : List (String × String)) (ctx c : Ctx),
      resolveSecrets fetch l ctx = .ok c → c = insertAll ctx (allContribs fetch l) := by
  intro l
  induction l with
  | nil =>
    intro ctx c h
    simp only [resolveSecrets] at h
    cases h
    rfl
  | cons s rest ih =>
    intro ctx c h
    obtain ⟨n, a⟩ := s
    simp only [resolveSecrets, getSecretValueWithContext] at h
    cases hf : fetch a with
    | error e => rw [hf] at h; cases h
    | ok v =>
      rw [hf] at h
      have := ih (mergeSecret ctx n v) c h
      rw [this, mergeSecret_eq_insertAll, ← insertAll_append]
      simp [allContribs, contribsOf, hf]

/-- The context keys a discovered secret contributes. -/
def secretKeys (fetch : String → Except String String) (s : String × String) : List String :=
  (contribsOf fetch s).map Prod.fst

/-- Two secrets contribute disjoint sets of context keys. -/
def DisjKeys (fetch : String → Except String String) (a b : String × String) : Prop :=
  ∀ k, k ∈ secretKeys fetch a → k ∉ secretKeys fetch b

theorem disjKeys_symm (fetch : String → Except String String) {a b : String × String}
    (h : DisjKeys fetch a b) : DisjKeys fetch b a :=
  fun k hkb hka => h k hka hkb

/-- Under pairwise key-disjointness, the final value of every context
key is independent of the iteration order over the discovered secrets. -/
theorem lastLookup_allContribs_perm (fetch : String → Except String String)
    {o1 o2 : List (String × String)} (hp : o1.Perm o2)
    (hd : o1.Pairwise (DisjKeys fetch)) (k : String) :
    lastLookup (allContribs fetch o1) k = lastLookup (allContribs fetch o2) k := by
  induction hp with
  | nil => rfl
  | cons x p ih =>
    have hd2 := (List.pairwise_cons.mp hd).2
    simp [allContribs, lastLookup_append, ih hd2]
  | swap x y l =>
    have hxy : DisjKeys fetch y x :=
      (List.pairwise_cons.mp hd).1 x (List.mem_cons_self x _)
    simp only [allContribs, lastLookup_append]
    cases hR : lastLookup (allContribs fetch l) k with
    | some w => rfl
    | none =>
      show optOr (optOr none _) _ = optOr (optOr none _) _
      simp only [optOr]
      cases hx : lastLookup (contribsOf fetch x) k with
      | none => cases lastLookup (contribsOf fetch y) k <;> rfl
      | some wx =>
        cases hy : lastLookup (contribsOf fetch y) k with
        | none => rfl
        | some wy =>
          exact absurd (lastLookup_some_mem _ _ _ hx)
            (hxy k (lastLookup_some_mem _ _ _ hy))
  | trans p1 p2 ih1 ih2 =>
    have hd2 := (List.Perm.pairwise_iff (fun h => disjKeys_symm fetch h) p1).mp hd
    exact (ih1 hd).trans (ih2 hd2)

/-- Template execution only observes the context through key lookup. -/
theorem renderTemplate_congr (c1 c2 : Ctx) (h : ∀ k, ctxGet c1 k = ctxGet c2 k) :
    ∀ t : List TNode, renderTemplate t c1 = renderTemplate t c2 := by
  intro t
  induction t with
  | nil => rfl
  | cons nd rest ih =>
    cases nd with
    | text s => simp [renderTemplate, ih]
    | field k => simp [renderTemplate, ih, h k]

/-- Template execution distributes over template concatenation. -/
theorem renderTemplate_append (a b : List TNode) (ctx : Ctx) :
    renderTemplate (a ++ b) ctx = renderTemplate a ctx ++ renderTemplate b ctx := by
  induction a with
  | nil => simp [renderTemplate]
  | cons nd rest ih =>
    cases nd with
    | text s => simp [renderTemplate, ih, String.append_assoc]
    | field k => simp [renderTemplate, ih, String.append_assoc]

/-- Rendering against the empty context keeps exactly the literal text
of the template. -/
def textOnly : List TNode → String
  | [] => ""
  | .text s :: rest => s ++ textOnly rest
  | .field _ :: rest => textOnly rest

theorem renderTemplate_nilCtx (t : List TNode) : renderTemplate t [] = textOnly t := by
  induction t with
  | nil => rfl
  | cons nd rest ih =>
    cases nd with
    | text s => simp [renderTemplate, textOnly, ih]
    | field k => simp [renderTemplate, textOnly, ih, ctxGet, htmlEscape]

/-- If any secret in the iteration order fails to fetch, the resolution
loop returns an error. -/
theorem resolveSecrets_error_of_mem (fetch : String → Except String String) :
    ∀ (l : List (String × String)) (ctx : Ctx) (nm arn e : String),
      (nm, arn) ∈ l → fetch arn = .error e →
      ∃ e2, resolveSecrets fetch l ctx = .error e2 := by
  intro l
  induction l with
  | nil => intro ctx nm arn e h; cases h
  | cons s rest ih =>
    intro ctx nm arn e hmem hf
    obtain ⟨n2, a2⟩ := s
    simp only [resolveSecrets, getSecretValueWithContext]
    cases hfa : fetch a2 with
    | error e2 => exact ⟨e2, rfl⟩
    | ok v =>
      rcases List.mem_cons.mp hmem with heq | hrest
      · injection heq with hn ha
        subst hn; subst ha
        rw [hf] at hfa
        cases hfa
      · exact ih (mergeSecret ctx n2 v) nm arn e hrest hf

/-- C1: a fetched secret value that parses as a JSON object merges
exactly its top-level keys into the shared context, each with the
%v-stringified value; every other key, including the keys of nested
objects, keeps its previous binding — flattening is one level deep. -/
theorem json_object_flattens_one_level (ctx : Ctx) (secretName s : String)
    (kvs : List (String × Jval)) (h : unmarshalStringMap s = .obj kvs) :
    (∀ k w, lastLookup (kvs.map (fun kv => (kv.1, goFmtV kv.2))) k = some w →
        ctxGet (mergeSecret ctx secretName s) k = some w) ∧
    (∀ k, lastLookup (kvs.map (fun kv => (kv.1, goFmtV kv.2))) k = none →
        ctxGet (mergeSecret ctx secretName s) k = ctxGet ctx k) := by
  have hm : mergeSecret ctx secretName s
      = insertAll ctx (kvs.map (fun kv => (kv.1, goFmtV kv.2))) := by
    rw [mergeSecret_eq_insertAll]
    simp [contribsVal, h]
  constructor
  · intro k w hk
    rw [hm, ctxGet_insertAll, hk]
    rfl
  · intro k hk
    rw [hm, ctxGet_insertAll, hk]
    rfl

/-- C1 witness: the object with a nested object and a plain string value
merges its two top-level keys (the nested object fmt-stringified) and
does not surface the nested key b. -/
theorem json_object_flattens_one_level_witness :
    ctxGet (mergeSecret [] "sec" "\x7b\"a\":\x7b\"b\":\"c\"\x7d,\"d\":\"e\"\x7d") "a"
      = some "map[b:c]" ∧
    ctxGet (mergeSecret [] "sec" "\x7b\"a\":\x7b\"b\":\"c\"\x7d,\"d\":\"e\"\x7d") "d"
      = some "e" ∧
    ctxGet (mergeSecret [] "sec" "\x7b\"a\":\x7b\"b\":\"c\"\x7d,\"d\":\"e\"\x7d") "b"
      = none := by
  have h : unmarshalStringMap "\x7b\"a\":\x7b\"b\":\"c\"\x7d,\"d\":\"e\"\x7d"
      = .obj [("a", Jval.jobj [("b", Jval.jstr "c")]), ("d", Jval.jstr "e")] := rfl
  have t := json_object_flattens_one_level [] "sec"
    "\x7b\"a\":\x7b\"b\":\"c\"\x7d,\"d\":\"e\"\x7d" _ h
  exact ⟨t.1 "a" "map[b:c]" rfl, t.1 "d" "e" rfl, (t.2 "b" rfl).trans rfl⟩

/-- C2 (amended): a fetched value that json.Unmarshal rejects (invalid
JSON, or a top-level string, number, boolean or array) is stored as a
single entry under the secret's own name with the raw value; every other
key keeps its previous binding. -/
theorem non_object_secret_stored_raw (ctx : Ctx) (secretName s : String)
    (h : unmarshalStringMap s = .err) :
    ∀ k, ctxGet (mergeSecret ctx secretName s) k =
      if k = secretName then some s else ctxGet ctx k := by
  intro k
  simp [mergeSecret, h, ctxGet_ctxInsert]

/-- C2 witness: a non-JSON plain string lands under the secret's own
name and nowhere else. -/
theorem non_object_secret_stored_raw_witness :
    ctxGet (mergeSecret [] "mysecret" "plain text") "mysecret" = some "plain text" ∧
    ctxGet (mergeSecret [] "mysecret" "plain text") "other" = none := by
  have t := non_object_secret_stored_raw [] "mysecret" "plain text" rfl
  exact ⟨(t "mysecret").trans rfl, (t "other").trans rfl⟩

/-- C2 counterexample: the JSON literal null is not a JSON object, yet
json.Unmarshal accepts it and leaves the map nil, so the loop merges
nothing: the context gains no entry at all for that secret, not one
entry under its name as claimed. -/
theorem non_object_secret_stored_raw_cex :
    unmarshalStringMap "null" = .nullVal ∧
    mergeSecret [] "mysecret" "null" = [] ∧
    ctxGet (mergeSecret [] "mysecret" "null") "mysecret" = none :=
  ⟨rfl, rfl, rfl⟩

/-- C3: if the value fetch of any discovered secret fails, the run
produces no output content: listSecretsWithFilter returns the error and
main terminates before createFile, so mainRun is never ok. -/
theorem fetch_failure_aborts_run (name nm arn e : String)
    (secretList : List (String × String)) (fetch : String → Except String String)
    (tmpl : List TNode) (h1 : (nm, arn) ∈ secretList) (h2 : fetch arn = .error e) :
    ∀ out, mainRun name (.ok secretList) fetch tmpl ≠ .ok out := by
  intro out hcontra
  obtain ⟨e2, he⟩ := resolveSecrets_error_of_mem fetch secretList [] nm arn e h1 h2
  simp [mainRun, listSecretsWithFilter, he] at hcontra

/-- C3 witness: one failing fetch among two secrets yields no output, in
particular not the output the template would otherwise render. -/
theorem fetch_failure_aborts_run_witness :
    mainRun "prod" (.ok [("A", "arnA"), ("B", "arnB")])
      (fun a => if a = "arnA" then .ok "x" else .error "AccessDenied")
      [TNode.field "A"] ≠ .ok "x" :=
  fetch_failure_aborts_run "prod" "B" "arnB" "AccessDenied"
    [("A", "arnA"), ("B", "arnB")]
    (fun a => if a = "arnA" then .ok "x" else .error "AccessDenied")
    [TNode.field "A"] (by decide) rfl "x"

/-- C4: a template action whose key is absent from the context renders
as the empty string in its position, and execution still succeeds: the
pipeline output is ok with the placeholder contributing nothing. -/
theorem unresolved_placeholder_renders_empty (ctx : Ctx) (k : String)
    (pre post : List TNode) (h : ctxGet ctx k = none) :
    createFile (pre ++ TNode.field k :: post) ctx
      = createFile pre ctx ++ createFile post ctx ∧
    (∀ (name : String) (listResp : Except String (List (String × String)))
        (fetch : String → Except String String),
      listSecretsWithFilter name listResp fetch = .ok ctx →
      mainRun name listResp fetch (pre ++ TNode.field k :: post)
        = .ok (createFile pre ctx ++ createFile post ctx)) := by
  have he : htmlEscape "" = "" := rfl
  have hmain : createFile (pre ++ TNode.field k :: post) ctx
      = createFile pre ctx ++ createFile post ctx := by
    show renderTemplate _ _ = _
    rw [renderTemplate_append]
    simp [createFile, renderTemplate, h, he]
  refine ⟨hmain, ?_⟩
  intro name listResp fetch hls
  simp [mainRun, hls, hmain]

/-- C4 witness: a Missing key between two text nodes renders to the
empty string and the run succeeds. -/
theorem unresolved_placeholder_renders_empty_witness :
    createFile [TNode.text "x", TNode.field "Missing", TNode.text "y"] [("a", "1")]
      = createFile [TNode.text "x"] [("a", "1")]
        ++ createFile [TNode.text "y"] [("a", "1")] ∧
    mainRun "prod" (.ok [("asec", "arn")])
      (fun a => if a = "arn" then .ok "\x7b\"a\":\"1\"\x7d" else .error "nf")
      [TNode.text "x", TNode.field "Missing", TNode.text "y"]
      = .ok (createFile [TNode.text "x"] [("a", "1")]
        ++ createFile [TNode.text "y"] [("a", "1")]) := by
  have t := unresolved_placeholder_renders_empty [("a", "1")] "Missing"
    [TNode.text "x"] [TNode.text "y"] rfl
  exact ⟨t.1, t.2 "prod" (.ok [("asec", "arn")])
    (fun a => if a = "arn" then .ok "\x7b\"a\":\"1\"\x7d" else .error "nf") rfl⟩

/-- C5: a selection criterion matching zero secrets is a success:
discovery returns the empty mapping without error, the template context
is empty, and rendering completes with every action contributing the
empty string, leaving only the template's literal text. -/
theorem zero_matches_is_success (name : String)
    (fetch : String → Except String String) (tmpl : List TNode) :
    listSecretsWithFilter name (.ok []) fetch = .ok [] ∧
    (∀ k, ctxGet ([] : Ctx) k = none) ∧
    mainRun name (.ok []) fetch tmpl = .ok (textOnly tmpl) := by
  refine ⟨rfl, fun k => rfl, ?_⟩
  simp [mainRun, listSecretsWithFilter, resolveSecrets, createFile, renderTemplate_nilCtx]

/-- C6: the html/template engine escapes substituted secret values with
the HTML replacement table even for a plain-text target: the characters
ampersand, less-than and greater-than in the secret value reach the
output file as their escaped entities. -/
theorem html_escaping_applied_to_output :
    mainRun "prod" (.ok [("app", "arn1")])
      (fun a => if a = "arn1" then .ok "\x7b\"k\":\"a&b<c>\"\x7d" else .error "nf")
      [TNode.text "v=", TNode.field "k"] = .ok "v=a&amp;b&lt;c&gt;" := rfl

/-- C7 counterexample: a fixed store state (the same two secrets with
the same values) rendered with two different map iteration orders — both
orders are permutations of the same discovery result — produces
different output bytes when the secrets contribute the same context key,
so the two-run pipeline is not deterministic as claimed. -/
theorem two_run_byte_identity_cex :
    ([("A", "arnA"), ("B", "arnB")] : List (String × String)).Perm
      [("B", "arnB"), ("A", "arnA")] ∧
    mainRun "prod" (.ok [("A", "arnA"), ("B", "arnB")])
      (fun a => if a = "arnA" then .ok "\x7b\"k\":\"1\"\x7d" else .ok "\x7b\"k\":\"2\"\x7d")
      [TNode.field "k"]
      ≠ mainRun "prod" (.ok [("B", "arnB"), ("A", "arnA")])
        (fun a => if a = "arnA" then .ok "\x7b\"k\":\"1\"\x7d" else .ok "\x7b\"k\":\"2\"\x7d")
        [TNode.field "k"] := by
  constructor
  · exact List.Perm.swap _ _ _
  · intro hcontra
    exact absurd (Except.ok.inj hcontra) (by decide)

/-- C7 (amended): with a fixed store state and template the pipeline
output is byte-identical across runs provided the iteration order is the
same; when no two distinct secrets contribute the same context key the
output is moreover independent of the iteration order, so two runs agree
regardless of Go's map order randomization. -/
theorem pipeline_output_order_invariant (name : String)
    (o1 o2 : List (String × String)) (fetch : String → Except String String)
    (tmpl : List TNode) (c1 c2 : Ctx)
    (hp : o1.Perm o2) (hd : o1.Pairwise (DisjKeys fetch))
    (h1 : listSecretsWithFilter name (.ok o1) fetch = .ok c1)
    (h2 : listSecretsWithFilter name (.ok o2) fetch = .ok c2) :
    createFile tmpl c1 = createFile tmpl c2 := by
  simp only [listSecretsWithFilter] at h1 h2
  have e1 := resolveSecrets_ok fetch o1 [] c1 h1
  have e2 := resolveSecrets_ok fetch o2 [] c2 h2
  have hk : ∀ k, ctxGet c1 k = ctxGet c2 k := by
    intro k
    rw [e1, e2, ctxGet_insertAll, ctxGet_insertAll,
      lastLookup_allContribs_perm fetch hp hd k]
  exact renderTemplate_congr c1 c2 hk tmpl

/-- C7 witness: two key-disjoint secrets resolved in the two possible
orders produce syntactically different contexts but identical rendered
output. -/
theorem pipeline_output_order_invariant_witness :
    createFile [TNode.field "x", TNode.field "B"] [("B", "plain"), ("x", "1")]
      = createFile [TNode.field "x", TNode.field "B"] [("x", "1"), ("B", "plain")] := by
  have hd : List.Pairwise
      (DisjKeys (fun a => if a = "arnA" then Except.ok "\x7b\"x\":\"1\"\x7d"
        else Except.ok "plain"))
      [("A", "arnA"), ("B", "arnB")] := by
    refine List.Pairwise.cons ?_
      (List.Pairwise.cons (fun b hb => absurd hb (List.not_mem_nil b)) List.Pairwise.nil)
    intro b hb
    rw [List.mem_singleton] at hb
    subst hb
    intro k hk
    have hA : secretKeys (fun a => if a = "arnA" then Except.ok "\x7b\"x\":\"1\"\x7d"
        else Except.ok "plain") ("A", "arnA") = ["x"] := rfl
    have hB : secretKeys (fun a => if a = "arnA" then Except.ok "\x7b\"x\":\"1\"\x7d"
        else Except.ok "plain") ("B", "arnB") = ["B"] := rfl
    rw [hA, List.mem_singleton] at hk
    subst hk
    rw [hB]
    decide
  exact pipeline_output_order_invariant "c"
    [("A", "arnA"), ("B", "arnB")] [("B", "arnB"), ("A", "arnA")]
    (fun a => if a = "arnA" then Except.ok "\x7b\"x\":\"1\"\x7d" else Except.ok "plain")
    [TNode.field "x", TNode.field "B"]
    [("B", "plain"), ("x", "1")] [("x", "1"), ("B", "plain")]
    (List.Perm.swap _ _ _) hd rfl rfl

/-- C8: when a later secret in the iteration order contributes a context
key, its value overwrites whatever an earlier secret put there:
last-write-wins over the shared flat context. -/
theorem later_secret_overwrites_earlier (ctx : Ctx) (n1 v1 n2 v2 k w : String)
    (h : lastLookup (contribsVal n2 v2) k = some w) :
    ctxGet (mergeSecret (mergeSecret ctx n1 v1) n2 v2) k = some w := by
  rw [mergeSecret_eq_insertAll (mergeSecret ctx n1 v1), ctxGet_insertAll, h]
  rfl

/-- C8 witness: two JSON-object secrets colliding on the key k; the one
merged second wins. -/
theorem later_secret_overwrites_earlier_witness :
    ctxGet (mergeSecret (mergeSecret [] "s1" "\x7b\"k\":\"old\"\x7d")
      "s2" "\x7b\"k\":\"new\"\x7d") "k" = some "new" :=
  later_secret_overwrites_earlier [] "s1" "\x7b\"k\":\"old\"\x7d"
    "s2" "\x7b\"k\":\"new\"\x7d" "k" "new" rfl

/-- Character-list prefix test. -/
def startsWithChars : List Char → List Char → Bool
  | [], _ => true
  | _ :: _, [] => false
  | p :: ps, c :: cs => if p = c then startsWithChars ps cs else false

/-- Character-list substring test. -/
def containsChars (pat : List Char) : List Char → Bool
  | [] => startsWithChars pat []
  | c :: rest => if startsWithChars pat (c :: rest) then true else containsChars pat rest

/-- Modelled from the spec: an error is signaled with the triggering
selection criterion attached when the criterion's text occurs in the
error value the caller receives. -/
def mentionsCriterion (e criterion : String) : Prop :=
  containsChars criterion.data e.data = true

/-- C9 counterexample: when ListSecrets fails, listSecretsWithFilter
returns the store's error value unchanged — not wrapped, and without the
triggering criterion attached. -/
theorem discovery_error_not_wrapped_cex :
    listSecretsWithFilter "prod" (.error "connection refused") (fun _ => .error "nf")
      = .error "connection refused" ∧
    ¬ mentionsCriterion "connection refused" "prod" := by
  refine ⟨rfl, ?_⟩
  show containsChars "prod".data "connection refused".data ≠ true
  decide

/-- C9 (amended): every discovery-stage error is propagated to the
caller as the raw store error, unchanged: no wrapping and no criterion
attached (the criterion appears only in log output). -/
theorem discovery_error_returned_unchanged (name e : String)
    (fetch : String → Except String String) :
    listSecretsWithFilter name (.error e) fetch = .error e := rfl

/-- C10: non-string top-level values of a JSON-object secret enter the
context as Go fmt's %v rendering of the decoded value — a nested object
as map[b:c], a number in shortest float form, a boolean as true, an
array space-separated in brackets, null as <nil> — and not as the
value's JSON serialization. -/
theorem nonstring_values_use_fmt_rendering :
    ctxGet (mergeSecret [] "s"
      "\x7b\"a\":\x7b\"b\":\"c\"\x7d,\"n\":5,\"t\":true,\"arr\":[1,2],\"z\":null\x7d") "a"
      = some "map[b:c]" ∧
    ctxGet (mergeSecret [] "s"
      "\x7b\"a\":\x7b\"b\":\"c\"\x7d,\"n\":5,\"t\":true,\"arr\":[1,2],\"z\":null\x7d") "n"
      = some "5" ∧
    ctxGet (mergeSecret [] "s"
      "\x7b\"a\":\x7b\"b\":\"c\"\x7d,\"n\":5,\"t\":true,\"arr\":[1,2],\"z\":null\x7d") "t"
      = some "true" ∧
    ctxGet (mergeSecret [] "s"
      "\x7b\"a\":\x7b\"b\":\"c\"\x7d,\"n\":5,\"t\":true,\"arr\":[1,2],\"z\":null\x7d") "arr"
      = some "[1 2]" ∧
    ctxGet (mergeSecret [] "s"
      "\x7b\"a\":\x7b\"b\":\"c\"\x7d,\"n\":5,\"t\":true,\"arr\":[1,2],\"z\":null\x7d") "z"
      = some "<nil>" ∧
    ctxGet (mergeSecret [] "s"
      "\x7b\"a\":\x7b\"b\":\"c\"\x7d,\"n\":5,\"t\":true,\"arr\":[1,2],\"z\":null\x7d") "a"
      ≠ some "\x7b\"b\":\"c\"\x7d" := by
  refine ⟨rfl, rfl, rfl, rfl, rfl, ?_⟩
  intro hcontra
  exact absurd (Option.some.inj hcontra) (by decide)

end AwsSecretParse
